import Mathlib

/-!
Verification of the log-ingestion and diff-engine core of `server.py`.

The Python source is shallowly embedded: each relevant construct of the
program (the `LOG_LINE_REGEX` matcher, the per-line parsing in `parse_logs`,
the code-block extraction toggle, the run sorting, and the `/diff` branch of
`do_GET` with its module-level `diff_cache`) is translated into an executable
Lean definition.  Strings are Lean `String`s (lists of characters), Python
floats appearing in this program are parsed decimal literals modelled as
exact rationals (no arithmetic is ever performed on them by the program, they
are only stored), and Python exceptions are modelled with `Except Unit`.
-/

deriving instance DecidableEq for Except

namespace Srv

/-- The character class `\d` of the regex (ASCII digits, as occur in logs). -/
def isDigitC (c : Char) : Bool := c.isDigit

/-- The character class `\w` (and `[\w_]`) of the regex: letters, digits, `_`. -/
def isWordC (c : Char) : Bool := c.isAlphanum || c = '_'

/-- The character class `[\d\.]` of the regex: digits and the dot. -/
def isNumC (c : Char) : Bool := c.isDigit || c = '.'

/-- The character class `[\d\.n]` of the regex used for the `step_avg` group:
digits, the dot, and the letter `n`.  Note `a` is NOT in this class. -/
def isAvgC (c : Char) : Bool := c.isDigit || c = '.' || c = 'n'

/-- Python's notion of whitespace for `str.strip()` (ASCII part). -/
def pyWS (c : Char) : Bool :=
  c = ' ' || c = '\t' || c = '\n' || c = '\r' || c = '\x0b' || c = '\x0c'

/-- `str.strip()`: remove whitespace from both ends. -/
def pyStrip (cs : List Char) : List Char :=
  ((cs.dropWhile pyWS).reverse.dropWhile pyWS).reverse

/-- Match a literal fragment of the regex: if `p` is a prefix of `cs`,
return the rest of `cs`, else fail. -/
def dropLit : List Char → List Char → Option (List Char)
  | [], cs => some cs
  | _ :: _, [] => none
  | p :: ps, c :: cs => if c = p then dropLit ps cs else none

/-- Numeric value of a digit string, as Python's `int` computes it. -/
def digitsVal (cs : List Char) : ℕ :=
  cs.foldl (fun a c => 10 * a + (c.toNat - 48)) 0

/-- Python's `int(s)`, restricted to the strings this program feeds to it
(the regex captures): succeeds exactly on nonempty digit strings. -/
def pyInt? (cs : List Char) : Option ℤ :=
  if cs ≠ [] ∧ cs.all isDigitC then some (digitsVal cs : ℤ) else none

/-- A Python float value as this program uses them: the program never does
arithmetic on them, so a parsed decimal literal is kept exactly, and `nan`
is a distinguished value. -/
inductive PyFloat where
  | nan : PyFloat
  | finite : ℚ → PyFloat
deriving DecidableEq

/-- The exact value of the decimal literal with integer part `ip` and
fractional part `fp` (built with `mkRat` so that it evaluates by kernel
reduction). -/
def decVal (ip fp : List Char) : ℚ :=
  mkRat (digitsVal ip * 10 ^ fp.length + digitsVal fp) (10 ^ fp.length)

/-- Python's `float(s)`, restricted to the strings this program can feed to
it (strings over digits, `.` and `n`, as captured by the regex): `"nan"`
parses to NaN; otherwise an optional integer part, an optional single dot
and an optional fractional part, with at least one digit overall; anything
else raises `ValueError` (`none`). -/
def pyFloat? (cs : List Char) : Option PyFloat :=
  if cs = "nan".data then some .nan
  else
    match cs.dropWhile isDigitC with
    | [] =>
      if cs.takeWhile isDigitC = [] then none
      else some (.finite (decVal (cs.takeWhile isDigitC) []))
    | '.' :: fp =>
      if fp.all isDigitC = true ∧ (cs.takeWhile isDigitC ≠ [] ∨ fp ≠ []) then
        some (.finite (decVal (cs.takeWhile isDigitC) fp))
      else none
    | _ => none

/-- The six captured groups of `LOG_LINE_REGEX`. -/
structure Caps where
  g1 : List Char
  g2 : List Char
  g3 : List Char
  g4 : List Char
  g5 : List Char
  g6 : List Char
deriving DecidableEq

/-- One iteration of the regex fragment `(?: [\w_]+:[\d\.]+)`: a space, a
nonempty word, a colon, a nonempty numeric token.  Returns the rest on
success.  The maximal-run captures are faithful to the backtracking engine:
shrinking either run leaves a character of the same class at the front where
the following literal (`:`, or the space starting the next fragment) is
required, so no shorter capture can ever succeed. -/
def matchChunk (r : List Char) : Option (List Char) :=
  match dropLit " ".data r with
  | none => none
  | some r1 =>
    if r1.takeWhile isWordC = [] then none
    else
      match dropLit ":".data (r1.dropWhile isWordC) with
      | none => none
      | some r3 =>
        if r3.takeWhile isNumC = [] then none else some (r3.dropWhile isNumC)

/-- The tail of the regex, ` train_time:([\d\.]+)ms step_avg:([\d\.n]+)ms`,
returning the two captures (the regex has no end anchor, so trailing text is
ignored).  Again maximal runs are exact: `m` belongs to neither class, so a
shorter capture leaves a class character where `m` is required. -/
def matchTail (r : List Char) : Option (List Char × List Char) :=
  match dropLit " train_time:".data r with
  | none => none
  | some r1 =>
    if r1.takeWhile isNumC = [] then none
    else
      match dropLit "ms step_avg:".data (r1.dropWhile isNumC) with
      | none => none
      | some r3 =>
        if r3.takeWhile isAvgC = [] then none
        else
          match dropLit "ms".data (r3.dropWhile isAvgC) with
          | none => none
          | some _ => some (r1.takeWhile isNumC, r3.takeWhile isAvgC)

/-- The greedy star `(?: [\w_]+:[\d\.]+)*` followed by the tail: the engine
first tries to consume another iteration and only falls back to matching the
tail at the current position when everything downstream fails.  Fuel-indexed
for structural recursion; every iteration consumes at least four characters,
so fuel `length + 1` never runs out. -/
def starTail : ℕ → List Char → Option (List Char × List Char)
  | 0, _ => none
  | fuel + 1, r =>
    match matchChunk r with
    | some r' =>
      match starTail fuel r' with
      | some g => some g
      | none => matchTail r
    | none => matchTail r

/-- `LOG_LINE_REGEX.match(s)`: the anchored-at-start match of
`step:(\d+)/(\d+) (\w+):([\d\.]+)(?: [\w_]+:[\d\.]+)* train_time:([\d\.]+)ms
step_avg:([\d\.n]+)ms` returning the captures. -/
def logLineMatch (s : List Char) : Option Caps :=
  match dropLit "step:".data s with
  | none => none
  | some r1 =>
    if r1.takeWhile isDigitC = [] then none
    else
      match dropLit "/".data (r1.dropWhile isDigitC) with
      | none => none
      | some r3 =>
        if r3.takeWhile isDigitC = [] then none
        else
          match dropLit " ".data (r3.dropWhile isDigitC) with
          | none => none
          | some r5 =>
            if r5.takeWhile isWordC = [] then none
            else
              match dropLit ":".data (r5.dropWhile isWordC) with
              | none => none
              | some r7 =>
                if r7.takeWhile isNumC = [] then none
                else
                  match starTail ((r7.dropWhile isNumC).length + 1) (r7.dropWhile isNumC) with
                  | none => none
                  | some (g5, g6) =>
                    some ⟨r1.takeWhile isDigitC, r3.takeWhile isDigitC,
                          r5.takeWhile isWordC, r7.takeWhile isNumC, g5, g6⟩

/-- The per-sample dictionary built in `parse_logs` (lines 56–62): the
`total_steps` group is converted but not stored. -/
structure MetricSample where
  step : ℤ
  metric_name : String
  metric_value : PyFloat
  train_time : PyFloat
  step_avg : Option PyFloat
deriving DecidableEq

/-- Lines 44–62 of `parse_logs`, for a single line: strip, match the regex;
on no match produce no sample (`ok none`); on a match run the `int`/`float`
conversions in source order (a `ValueError` propagates as `error`), mapping
a captured `step_avg` equal to the literal string `nan` to `none`. -/
def convCaps (caps : Caps) : Except Unit (Option MetricSample) :=
  match pyInt? caps.g1 with
    | none => .error ()
    | some step =>
      match pyInt? caps.g2 with
      | none => .error ()
      | some _total_steps =>
        match pyFloat? caps.g4 with
        | none => .error ()
        | some metric_value =>
          match pyFloat? caps.g5 with
          | none => .error ()
          | some train_time =>
            if caps.g6 = "nan".data then
              .ok (some ⟨step, ⟨caps.g3⟩, metric_value, train_time, none⟩)
            else
              match pyFloat? caps.g6 with
              | none => .error ()
              | some step_avg =>
                .ok (some ⟨step, ⟨caps.g3⟩, metric_value, train_time, some step_avg⟩)

/-- The full parse of one line (lines 44–62): strip, match the regex,
convert the captures. -/
def parse_line (line : String) : Except Unit (Option MetricSample) :=
  match logLineMatch (pyStrip line.data) with
  | none => .ok none
  | some caps => convCaps caps

/-- The code-block delimiter test of line 38: `line.strip() == '=' * 100`. -/
def isSentinel (line : String) : Bool := pyStrip line.data = List.replicate 100 '='

/-- Lines 35–62 of `parse_logs`: walk the file's lines with the `in_code`
toggle; a sentinel line flips the mode and is skipped; in code mode the raw
line (terminator included) is appended to `code_lines`; otherwise the line
is fed to the regex parser and a match appends a sample to `data`.  A
conversion error propagates (aborting the whole scan, as an uncaught Python
exception would). -/
def processLines : Bool → List String → Except Unit (List String × List MetricSample)
  | _, [] => .ok ([], [])
  | inCode, line :: rest =>
    if isSentinel line then
      processLines (!inCode) rest
    else if inCode then
      match processLines inCode rest with
      | .error e => .error e
      | .ok (cl, d) => .ok (line :: cl, d)
    else
      match parse_line line with
      | .error e => .error e
      | .ok s =>
        match processLines inCode rest with
        | .error e => .error e
        | .ok (cl, d) => .ok (cl, match s with | some x => x :: d | none => d)

/-- The samples produced by the metrics-region lines `ls`, in order: the
lines whose parse yields a sample. -/
def parsedSamples (ls : List String) : List MetricSample :=
  ls.filterMap (fun l => match parse_line l with | .ok (some s) => some s | _ => none)

/-- Split a line list at its sentinel lines: the blocks of consecutive
non-sentinel lines, sentinels removed.  The result always has one more
block than there are sentinels; blocks at even positions were entered in
metrics mode and blocks at odd positions in code mode. -/
def splitChunks : List String → List (List String)
  | [] => [[]]
  | l :: ls =>
    if isSentinel l then [] :: splitChunks ls
    else
      match splitChunks ls with
      | [] => [[l]]
      | c :: cs => (l :: c) :: cs

/-- Every other element of a list, starting with the head iff `sel`. -/
def everyOther (sel : Bool) : List α → List α
  | [] => []
  | c :: cs => (if sel then [c] else []) ++ everyOther (!sel) cs

/-- The lines strictly after the last sentinel line (the whole list when no
sentinel occurs). -/
def afterLast (ls : List String) : List String :=
  (ls.reverse.takeWhile (fun l => !isSentinel l)).reverse

/-- One run record as built by `parse_logs` (lines 64–70); the
human-formatted timestamp string is omitted (it is derived from `mtime` by
`datetime` formatting and never used by the core logic). -/
structure Run where
  run_id : String
  mtime : ℚ
  code : String
  data : List MetricSample
deriving DecidableEq

instance : Inhabited Run := ⟨⟨"", 0, "", []⟩⟩

/-- One file of the log directory, abstracting the filesystem: its name,
its modification time, and its lines as `readlines` returns them
(terminators included). -/
structure FileEntry where
  name : String
  mtime : ℚ
  lines : List String

/-- `filename.endswith('.txt')`. -/
def endsWithTxt (s : String) : Bool :=
  match s.data.reverse with
  | 't' :: 'x' :: 't' :: '.' :: _ => true
  | _ => false

/-- `filename[:-4]`: the run id derived from the file name. -/
def dropTxt (s : String) : String := ⟨s.data.take (s.data.length - 4)⟩

/-- Ingest one eligible file (lines 25–70): extract code and samples and
record the modification time. -/
def runOfFile (f : FileEntry) : Except Unit Run :=
  match processLines false f.lines with
  | .error e => .error e
  | .ok (cl, d) => .ok ⟨dropTxt f.name, f.mtime, String.join cl, d⟩

/-- The descending-recency order used on line 72:
`runs.sort(key=lambda x: x['mtime'], reverse=True)`. -/
def mtimeGE (a b : Run) : Prop := b.mtime ≤ a.mtime

instance : DecidableRel mtimeGE := fun a b => inferInstanceAs (Decidable (b.mtime ≤ a.mtime))

instance : IsTotal Run mtimeGE := ⟨fun a b => le_total b.mtime a.mtime⟩

instance : IsTrans Run mtimeGE := ⟨fun _ _ _ h1 h2 => le_trans h2 h1⟩

/-- `parse_logs()` (lines 20–73): ingest every `.txt` file of the directory
and sort the runs by modification time, most recent first (a stable sort,
like Python's). -/
def parse_logs (files : List FileEntry) : Except Unit (List Run) :=
  match (files.filter (fun f => endsWithTxt f.name)).mapM runOfFile with
  | .error e => .error e
  | .ok runs => .ok (List.insertionSort mtimeGE runs)

/-- `str.splitlines(keepends=True)` on the newline-terminated text this
program produces: split after each newline, terminators kept; the empty
string yields the empty list. -/
def slk (cur : List Char) : List Char → List (List Char)
  | [] => if cur = [] then [] else [cur.reverse]
  | c :: rest =>
    if c = '\n' then (cur.reverse ++ ['\n']) :: slk [] rest
    else slk (c :: cur) rest

/-- `code.splitlines(keepends=True)` as used on lines 109–114. -/
def splitlinesKE (s : String) : List String := (slk [] s.data).map (fun l => ⟨l⟩)

/-- Modelled from the spec: `difflib.unified_diff` (Python standard
library, not part of src/).  Per §4.4 the diff is a standard line-oriented
unified diff comparing lines by exact text equality; its joined output is
empty iff the two sequences are equal, and otherwise begins with the two
file-header lines naming the sides.  Hunk contents are abstracted (no claim
depends on them), only emptiness and the labels are modelled. -/
def unified_diff (a b : List String) (fromfile tofile : String) : String :=
  if a = b then "" else "--- " ++ fromfile ++ "\n+++ " ++ tofile ++ "\n@@\n"

/-- The module-level `diff_cache` dict, as an association list; the program
only ever inserts absent keys, so insertion order is immaterial. -/
def Cache := List ((String × String) × String)

/-- Dict lookup `diff_cache[cache_key]` / `cache_key in diff_cache`. -/
def cacheLookup : Cache → (String × String) → Option String
  | [], _ => none
  | (k, v) :: rest, key => if k = key then some v else cacheLookup rest key

/-- The outcome of the `/diff` request: a 200 text response or an HTTP
error as sent by `send_error`. -/
inductive Response where
  | ok (body : String)
  | err (code : ℕ) (msg : String)
deriving DecidableEq

/-- Lines 110–118 of `do_GET`: resolve the baseline (`prev_code` with its
`compare_label`) from `compare_to` and the position of the selected run. -/
def resolveBaseline (runs : List Run) (index : ℕ) (compare_to : String) :
    List String × String :=
  if compare_to = "previous" ∧ index + 1 < runs.length then
    (splitlinesKE (runs.getD (index + 1) default).code, "Previous Run")
  else if compare_to = "first" ∧ 0 < runs.length then
    (splitlinesKE ((runs.getLast?).getD default).code, "First Run")
  else ([], "No Run to Compare")

/-- Lines 119–125 of `do_GET`: the diff body, branching on whether the
baseline's split code lines are non-empty (Python truthiness of
`prev_code`), then on whether the joined diff output is empty. -/
def diffBody (prev_code current_code : List String) (label : String) : String :=
  if prev_code ≠ [] then
    if unified_diff prev_code current_code label "Selected Run" = "" then
      "No differences found."
    else unified_diff prev_code current_code label "Selected Run"
  else "No run available to compare."

/-- Lines 109–127 of `do_GET`: the full diff text for the run at `index`,
with the header line of line 127 prefixed. -/
def computeDiffText (runs : List Run) (index : ℕ) (compare_to : String) : String :=
  "Comparing Run " ++ (runs.getD index default).run_id ++ " to " ++
    (resolveBaseline runs index compare_to).2 ++ "\n\n" ++
    diffBody (resolveBaseline runs index compare_to).1
      (splitlinesKE (runs.getD index default).code)
      (resolveBaseline runs index compare_to).2

/-- Lines 95–137 of `do_GET`, the `/diff` route: a missing (or Python-falsy)
`run_id` is a 400; an unknown `run_id` is the 200 text `Run ID not found.`
computed outside the cache; otherwise the memo keyed by
`(run_id, compare_to)` is consulted and filled. -/
def diff_GET (cache : Cache) (runs : List Run) (run_id? : Option String)
    (compare_to : String) : Response × Cache :=
  match run_id? with
  | none => (.err 400 "Bad Request: run_id parameter is missing.", cache)
  | some rid =>
    if rid = "" then (.err 400 "Bad Request: run_id parameter is missing.", cache)
    else
      match runs.findIdx? (fun r => r.run_id = rid) with
      | some index =>
        let key := (rid, compare_to)
        match cacheLookup cache key with
        | some t => (.ok t, cache)
        | none =>
          let t := computeDiffText runs index compare_to
          (.ok t, ((key, t) :: cache : Cache))
      | none => (.ok "Run ID not found.", cache)

/-! ### Lemmas about the regex matcher -/

theorem all_takeWhile (p : α → Bool) (l : List α) : (l.takeWhile p).all p = true := by
  rw [List.all_eq_true]
  intro x hx
  exact List.mem_takeWhile_imp hx

theorem matchTail_caps {r : List Char} {g5 g6 : List Char}
    (h : matchTail r = some (g5, g6)) :
    g5 ≠ [] ∧ g5.all isNumC = true ∧ g6 ≠ [] ∧ g6.all isAvgC = true := by
  unfold matchTail at h
  split at h
  · simp at h
  · split at h
    · simp at h
    · split at h
      · simp at h
      · split at h
        · simp at h
        · split at h
          · simp at h
          · simp only [Option.some.injEq, Prod.mk.injEq] at h
            obtain ⟨h5, h6⟩ := h
            subst h5; subst h6
            refine ⟨by assumption, all_takeWhile _ _, by assumption, all_takeWhile _ _⟩

theorem starTail_caps : ∀ (fuel : ℕ) (r g5 g6 : List Char),
    starTail fuel r = some (g5, g6) →
    g5 ≠ [] ∧ g5.all isNumC = true ∧ g6 ≠ [] ∧ g6.all isAvgC = true := by
  intro fuel
  induction fuel with
  | zero => intro r g5 g6 h; simp [starTail] at h
  | succ n ih =>
    intro r g5 g6 h
    simp only [starTail] at h
    split at h
    · split at h
      · next g hst => cases h; exact ih _ g5 g6 hst
      · exact matchTail_caps h
    · exact matchTail_caps h

theorem logLineMatch_caps {s : List Char} {caps : Caps} (h : logLineMatch s = some caps) :
    caps.g1 ≠ [] ∧ caps.g1.all isDigitC = true ∧
    caps.g2 ≠ [] ∧ caps.g2.all isDigitC = true ∧
    caps.g4 ≠ [] ∧ caps.g4.all isNumC = true ∧
    caps.g5 ≠ [] ∧ caps.g5.all isNumC = true ∧
    caps.g6 ≠ [] ∧ caps.g6.all isAvgC = true := by
  unfold logLineMatch at h
  split at h
  · simp at h
  · split at h
    · simp at h
    · split at h
      · simp at h
      · split at h
        · simp at h
        · split at h
          · simp at h
          · split at h
            · simp at h
            · split at h
              · simp at h
              · split at h
                · simp at h
                · split at h
                  · simp at h
                  · next g5 g6 hst =>
                      cases h
                      obtain ⟨h5n, h5a, h6n, h6a⟩ := starTail_caps _ _ _ _ hst
                      refine ⟨by assumption, all_takeWhile _ _, by assumption, all_takeWhile _ _,
                              by assumption, all_takeWhile _ _, h5n, h5a, h6n, h6a⟩

/-! ### Python number-parsing characterization -/

/-- The dot character test, used to count dots in a captured token. -/
def isDotC (c : Char) : Bool := c = '.'

/-- A captured numeric token is a well-formed decimal numeral: at most one
dot and at least one digit (exactly the strings over the characters the
regex can capture that Python's `float` accepts without `nan`). -/
def wfNum (cs : List Char) : Prop :=
  cs.countP isDotC ≤ 1 ∧ cs.any isDigitC = true

instance : DecidablePred wfNum := fun _ => inferInstanceAs (Decidable (_ ∧ _))

theorem numC_not_nan {cs : List Char} (hall : cs.all isNumC = true) : cs ≠ "nan".data := by
  intro hcs
  subst hcs
  exact absurd hall (by decide)

theorem avgC_not_nan {cs : List Char} (hall : cs.all isAvgC = true) : cs ≠ "nan".data := by
  intro hcs
  subst hcs
  exact absurd hall (by decide)

theorem dropWhile_head_false (p : α → Bool) :
    ∀ (l : List α) {a : α} {as : List α}, l.dropWhile p = a :: as → p a = false := by
  intro l
  induction l with
  | nil => intro a as h; simp at h
  | cons x xs ih =>
    intro a as h
    by_cases hx : p x = true
    · rw [List.dropWhile_cons_of_pos hx] at h
      exact ih h
    · rw [List.dropWhile_cons_of_neg hx] at h
      cases h
      simpa using hx

theorem digit_not_dot {x : Char} (hd : isDigitC x = true) : isDotC x = false := by
  rw [isDotC, decide_eq_false_iff_not]
  intro hx
  subst hx
  exact absurd hd (by decide)

theorem pyFloat?_eq_nil {cs : List Char} (hnan : cs ≠ "nan".data)
    (hrest : cs.dropWhile isDigitC = []) :
    pyFloat? cs = (if cs.takeWhile isDigitC = [] then none
      else some (.finite (decVal (cs.takeWhile isDigitC) []))) := by
  unfold pyFloat?
  rw [if_neg hnan, hrest]

theorem pyFloat?_eq_dot {cs fp : List Char} (hnan : cs ≠ "nan".data)
    (hrest : cs.dropWhile isDigitC = '.' :: fp) :
    pyFloat? cs = (if fp.all isDigitC = true ∧ (cs.takeWhile isDigitC ≠ [] ∨ fp ≠ []) then
      some (.finite (decVal (cs.takeWhile isDigitC) fp))
      else none) := by
  unfold pyFloat?
  rw [if_neg hnan, hrest]
  rfl

theorem pyFloat?_eq_other {cs fp : List Char} {c : Char} (hnan : cs ≠ "nan".data)
    (hrest : cs.dropWhile isDigitC = c :: fp) (hc : c ≠ '.') :
    pyFloat? cs = none := by
  unfold pyFloat?
  rw [if_neg hnan, hrest]
  split
  · next heq => simp at heq
  · next heq => exact absurd (List.cons.inj heq.symm).1 (fun h => hc h.symm)
  · rfl

theorem pyFloat?_numC {cs : List Char} (hne : cs ≠ []) (hall : cs.all isNumC = true) :
    ((pyFloat? cs).isSome = true) ↔ wfNum cs := by
  have hnan : cs ≠ "nan".data := numC_not_nan hall
  have hsplit := List.takeWhile_append_dropWhile isDigitC cs
  have hip_nodot : ∀ x ∈ cs.takeWhile isDigitC, ¬(isDotC x = true) := by
    intro x hx hdot
    rw [digit_not_dot (List.mem_takeWhile_imp hx)] at hdot
    cases hdot
  unfold wfNum
  rcases hrest : cs.dropWhile isDigitC with _ | ⟨c, fp⟩
  · rw [hrest] at hsplit
    simp only [List.append_nil] at hsplit
    have hipne : cs.takeWhile isDigitC ≠ [] := by rw [hsplit]; exact hne
    rw [pyFloat?_eq_nil hnan hrest, if_neg hipne]
    simp only [Option.isSome_some, true_iff]
    constructor
    · rw [← hsplit, List.countP_eq_zero.mpr hip_nodot]
      omega
    · rw [List.any_eq_true]
      obtain ⟨a, as, hcons⟩ := List.exists_cons_of_ne_nil hipne
      have ha : a ∈ cs.takeWhile isDigitC := by rw [hcons]; exact List.mem_cons_self _ _
      exact ⟨a, by rw [← hsplit]; exact ha, List.mem_takeWhile_imp ha⟩
  · have hcnd : isDigitC c = false := dropWhile_head_false _ _ hrest
    have hcmem : c ∈ cs := by
      rw [← hsplit, hrest]
      exact List.mem_append_right _ (List.mem_cons_self _ _)
    have hcnum : isNumC c = true := List.all_eq_true.mp hall c hcmem
    have hcdot : c = '.' := by
      simp only [isNumC, Bool.or_eq_true] at hcnum
      rcases hcnum with h | h
      · rw [isDigitC] at hcnd; rw [hcnd] at h; cases h
      · simpa using h
    subst hcdot
    have hfp_mem : ∀ x ∈ fp, x ∈ cs := by
      intro x hx
      rw [← hsplit, hrest]
      exact List.mem_append_right _ (List.mem_cons_of_mem _ hx)
    have hcnt : cs.countP isDotC = 1 + fp.countP isDotC := by
      conv_lhs => rw [← hsplit, hrest]
      rw [List.countP_append, List.countP_cons, List.countP_eq_zero.mpr hip_nodot]
      have hdot : isDotC '.' = true := by decide
      rw [if_pos hdot]
      omega
    rw [pyFloat?_eq_dot hnan hrest]
    constructor
    · intro hsome
      split at hsome
      · next hcond =>
        obtain ⟨hfpall, hor⟩ := hcond
        have hfp0 : fp.countP isDotC = 0 := by
          rw [List.countP_eq_zero]
          intro x hx hxdot
          rw [digit_not_dot (List.all_eq_true.mp hfpall _ hx)] at hxdot
          cases hxdot
        refine ⟨by omega, ?_⟩
        rw [List.any_eq_true]
        rcases hor with hip | hfp
        · obtain ⟨a, as, hcons⟩ := List.exists_cons_of_ne_nil hip
          have ha : a ∈ cs.takeWhile isDigitC := by rw [hcons]; exact List.mem_cons_self _ _
          exact ⟨a, by rw [← hsplit]; exact List.mem_append_left _ ha, List.mem_takeWhile_imp ha⟩
        · obtain ⟨a, as, hcons⟩ := List.exists_cons_of_ne_nil hfp
          have ha : a ∈ fp := by rw [hcons]; exact List.mem_cons_self _ _
          exact ⟨a, hfp_mem a ha, List.all_eq_true.mp hfpall _ ha⟩
      · simp at hsome
    · rintro ⟨hle, hany⟩
      have hfp0 : fp.countP isDotC = 0 := by omega
      have hfpall : fp.all isDigitC = true := by
        rw [List.all_eq_true]
        intro x hx
        have hxnum : isNumC x = true := List.all_eq_true.mp hall x (hfp_mem x hx)
        have hxnd : ¬(isDotC x = true) := List.countP_eq_zero.mp hfp0 x hx
        simp only [isNumC, Bool.or_eq_true] at hxnum
        rcases hxnum with h | h
        · exact h
        · rw [isDotC, decide_eq_true_eq] at hxnd
          exact absurd (by simpa using h) hxnd
      have hor : cs.takeWhile isDigitC ≠ [] ∨ fp ≠ [] := by
        rw [List.any_eq_true] at hany
        obtain ⟨a, hamem, hadig⟩ := hany
        rw [← hsplit, hrest] at hamem
        rcases List.mem_append.mp hamem with h | h
        · left; intro hnil; rw [hnil] at h; cases h
        · rcases List.mem_cons.mp h with h | h
          · subst h; exact absurd hadig (by decide)
          · right; intro hnil; rw [hnil] at h; cases h
      rw [if_pos ⟨hfpall, hor⟩]
      rfl

theorem pyFloat?_avgC {cs : List Char} (hne : cs ≠ []) (hall : cs.all isAvgC = true) :
    ((pyFloat? cs).isSome = true) ↔ (cs.all (fun c => !(c = 'n')) = true ∧ wfNum cs) := by
  by_cases hn : cs.all (fun c => !(c = 'n')) = true
  · have hnum : cs.all isNumC = true := by
      rw [List.all_eq_true]
      intro x hx
      have hxavg := List.all_eq_true.mp hall x hx
      have hxn := List.all_eq_true.mp hn x hx
      simp only [isAvgC, Bool.or_eq_true] at hxavg
      simp at hxn
      rcases hxavg with (h | h) | h
      · simp [isNumC, h]
      · simp [isNumC, h]
      · exact absurd (by simpa using h) hxn
    rw [pyFloat?_numC hne hnum]
    simp [hn]
  · have hnan : cs ≠ "nan".data := avgC_not_nan hall
    obtain ⟨x, hx, hxn⟩ : ∃ x ∈ cs, x = 'n' := by
      rw [List.all_eq_true] at hn
      push_neg at hn
      obtain ⟨x, hx, hxn⟩ := hn
      simp at hxn
      exact ⟨x, hx, hxn⟩
    subst hxn
    have hsplit := List.takeWhile_append_dropWhile isDigitC cs
    have hnin : 'n' ∈ cs.dropWhile isDigitC := by
      have hnip : 'n' ∉ cs.takeWhile isDigitC := by
        intro hmem
        exact absurd (List.mem_takeWhile_imp hmem) (by decide)
      rcases List.mem_append.mp (by rw [hsplit]; exact hx) with h | h
      · exact absurd h hnip
      · exact h
    obtain ⟨c, fp, hrest⟩ : ∃ c fp, cs.dropWhile isDigitC = c :: fp := by
      rcases hcase : cs.dropWhile isDigitC with _ | ⟨c, fp⟩
      · rw [hcase] at hnin; cases hnin
      · exact ⟨c, fp, rfl⟩
    have hnone : pyFloat? cs = none := by
      by_cases hcdot : c = '.'
      · subst hcdot
        rw [pyFloat?_eq_dot hnan hrest, if_neg]
        rintro ⟨hfpall, -⟩
        have hn_fp : 'n' ∈ fp := by
          rw [hrest] at hnin
          rcases List.mem_cons.mp hnin with h | h
          · exact absurd h (by decide)
          · exact h
        exact absurd (List.all_eq_true.mp hfpall _ hn_fp) (by decide)
      · rw [pyFloat?_eq_other hnan hrest hcdot]
    rw [hnone]
    simp [hn]

/-! ### Claims C1 and C2: the log record parser -/


theorem pyInt?_digits {cs : List Char} (hne : cs ≠ []) (hall : cs.all isDigitC = true) :
    pyInt? cs = some (digitsVal cs : ℤ) := by
  unfold pyInt?
  rw [if_pos ⟨hne, hall⟩]

theorem parse_line_eq_none {line : String} (h : logLineMatch (pyStrip line.data) = none) :
    parse_line line = .ok none := by
  unfold parse_line
  rw [h]

theorem parse_line_eq_caps {line : String} {caps : Caps}
    (h : logLineMatch (pyStrip line.data) = some caps) :
    parse_line line = convCaps caps := by
  unfold parse_line
  rw [h]

theorem parse_conversion {line : String} {caps : Caps}
    (h : logLineMatch (pyStrip line.data) = some caps) :
    parse_line line = .error () ↔
      ¬(wfNum caps.g4 ∧ wfNum caps.g5 ∧
        caps.g6.all (fun c => !(c = 'n')) = true ∧ wfNum caps.g6) := by
  obtain ⟨h1n, h1a, h2n, h2a, h4n, h4a, h5n, h5a, h6n, h6a⟩ := logLineMatch_caps h
  have h4iff := pyFloat?_numC h4n h4a
  have h5iff := pyFloat?_numC h5n h5a
  have h6iff := pyFloat?_avgC h6n h6a
  have h6nan : caps.g6 ≠ "nan".data := avgC_not_nan h6a
  rw [parse_line_eq_caps h]
  rcases hc4 : pyFloat? caps.g4 with _ | v4
  · rw [hc4] at h4iff
    simp only [Option.isSome_none, Bool.false_eq_true, false_iff] at h4iff
    have hval : convCaps caps = .error () := by
      unfold convCaps
      simp only [pyInt?_digits h1n h1a, pyInt?_digits h2n h2a, hc4]
    rw [hval]
    simp only [true_iff]
    rintro ⟨hA, -⟩
    exact h4iff hA
  · rw [hc4] at h4iff
    simp only [Option.isSome_some, true_iff] at h4iff
    rcases hc5 : pyFloat? caps.g5 with _ | v5
    · rw [hc5] at h5iff
      simp only [Option.isSome_none, Bool.false_eq_true, false_iff] at h5iff
      have hval : convCaps caps = .error () := by
        unfold convCaps
        simp only [pyInt?_digits h1n h1a, pyInt?_digits h2n h2a, hc4, hc5]
      rw [hval]
      simp only [true_iff]
      rintro ⟨-, hB, -⟩
      exact h5iff hB
    · rw [hc5] at h5iff
      simp only [Option.isSome_some, true_iff] at h5iff
      rcases hc6 : pyFloat? caps.g6 with _ | v6
      · rw [hc6] at h6iff
        simp only [Option.isSome_none, Bool.false_eq_true, false_iff, not_and] at h6iff
        have hval : convCaps caps = .error () := by
          unfold convCaps
          simp only [pyInt?_digits h1n h1a, pyInt?_digits h2n h2a, hc4, hc5, if_neg h6nan, hc6]
        rw [hval]
        simp only [true_iff]
        rintro ⟨-, -, hC, hD⟩
        exact h6iff hC hD
      · rw [hc6] at h6iff
        simp only [Option.isSome_some, true_iff] at h6iff
        have hval : convCaps caps =
            .ok (some ⟨(digitsVal caps.g1 : ℤ), ⟨caps.g3⟩, v4, v5, some v6⟩) := by
          unfold convCaps
          simp only [pyInt?_digits h1n h1a, pyInt?_digits h2n h2a, hc4, hc5, if_neg h6nan, hc6]
        rw [hval]
        constructor
        · intro hfalse
          cases hfalse
        · intro hcon
          exact absurd ⟨h4iff, h5iff, h6iff.1, h6iff.2⟩ hcon



theorem convCaps_step_avg {caps : Caps} {s : MetricSample}
    (hnan : caps.g6 ≠ "nan".data) (h : convCaps caps = .ok (some s)) :
    s.step_avg ≠ none := by
  unfold convCaps at h
  split at h
  · cases h
  · split at h
    · cases h
    · split at h
      · cases h
      · split at h
        · cases h
        · split at h
          · next hg6 => exact absurd hg6 hnan
          · split at h
            · cases h
            · next v6 _ =>
              simp only [Except.ok.injEq, Option.some.injEq] at h
              rw [← h]
              simp

/-- C1: the failing input `step:1/10 val_loss:2.5 train_time:100.0ms step_avg:nanms`
matches the documented grammar with step_avg token `nan`, yet the parser
produces no sample at all (the regex class `[\d\.n]` cannot match `a`), and
no parsed sample ever carries an absent step_avg: the code's `nan` branch is
dead. -/
theorem C1_nan_step_avg_unreachable :
    parse_line "step:1/10 val_loss:2.5 train_time:100.0ms step_avg:nanms" = .ok none ∧
    ∀ (line : String) (s : MetricSample),
      parse_line line = .ok (some s) → s.step_avg ≠ none := by
  constructor
  · decide
  · intro line s h
    rcases hm : logLineMatch (pyStrip line.data) with _ | caps
    · rw [parse_line_eq_none hm] at h
      cases h
    · rw [parse_line_eq_caps hm] at h
      obtain ⟨-, -, -, -, -, -, -, -, -, h6a⟩ := logLineMatch_caps hm
      exact convCaps_step_avg (avgC_not_nan h6a) h

theorem C1_witness :
    parse_line "step:2/10 val_loss:2.1 train_time:200.0ms step_avg:100.0ms" =
      .ok (some ⟨2, "val_loss", .finite (mkRat 21 10), .finite (mkRat 200 1),
        some (.finite (mkRat 100 1))⟩) ∧
    (⟨2, "val_loss", .finite (mkRat 21 10), .finite (mkRat 200 1),
        some (.finite (mkRat 100 1))⟩ :
      MetricSample).step_avg ≠ none := by
  refine ⟨by decide, ?_⟩
  exact C1_nan_step_avg_unreachable.2
    "step:2/10 val_loss:2.1 train_time:200.0ms step_avg:100.0ms" _ (by decide)

/-- C2 counterexample: a line the structural regex matches on which the
float conversion of the captured metric value `1.2.3` raises, so the
numeric-parse-failure branch is reachable, contrary to the claim. -/
theorem C2_counterexample :
    logLineMatch (pyStrip "step:1/2 loss:1.2.3 train_time:1.0ms step_avg:1.0ms".data) =
      some ⟨"1".data, "2".data, "loss".data, "1.2.3".data, "1.0".data, "1.0".data⟩ ∧
    parse_line "step:1/2 loss:1.2.3 train_time:1.0ms step_avg:1.0ms" = .error () := by
  constructor
  · decide
  · decide

/-- C2 (amended): a regex-matched line converts without error exactly when
every captured float token is a well-formed numeral (at most one dot, at
least one digit, and no stray `n` in the step_avg token); the int
conversions of the two step groups always succeed; an unmatched line yields
no sample and is not an error. -/
theorem C2_conversion_characterization (line : String) :
    (logLineMatch (pyStrip line.data) = none → parse_line line = .ok none) ∧
    (∀ caps : Caps, logLineMatch (pyStrip line.data) = some caps →
      (parse_line line = .error () ↔
        ¬(wfNum caps.g4 ∧ wfNum caps.g5 ∧
          caps.g6.all (fun c => !(c = 'n')) = true ∧ wfNum caps.g6))) :=
  ⟨fun h => parse_line_eq_none h, fun _ h => parse_conversion h⟩

theorem C2_witness :
    parse_line "step:1/2 loss:1.2.3 train_time:1.0ms step_avg:1.0ms" = .error () :=
  ((C2_conversion_characterization "step:1/2 loss:1.2.3 train_time:1.0ms step_avg:1.0ms").2
    ⟨"1".data, "2".data, "loss".data, "1.2.3".data, "1.0".data, "1.0".data⟩
    (by decide)).mpr (by decide)

/-! ### Claims C3 and C4: the run extractor -/

theorem splitChunks_ne_nil (ls : List String) : splitChunks ls ≠ [] := by
  cases ls with
  | nil => simp [splitChunks]
  | cons l ls =>
    rw [splitChunks]
    split
    · simp
    · split <;> simp

theorem processLines_chunks :
    ∀ (ls : List String) (b : Bool) (cl : List String) (d : List MetricSample),
      processLines b ls = .ok (cl, d) →
      cl = (everyOther b (splitChunks ls)).flatten ∧
      d = parsedSamples ((everyOther (!b) (splitChunks ls)).flatten) := by
  intro ls
  induction ls with
  | nil =>
    intro b cl d h
    simp only [processLines, Except.ok.injEq, Prod.mk.injEq] at h
    obtain ⟨hcl, hd⟩ := h
    subst hcl; subst hd
    cases b <;> simp [splitChunks, everyOther, parsedSamples]
  | cons line rest ih =>
    intro b cl d h
    by_cases hs : isSentinel line = true
    · rw [processLines, if_pos hs] at h
      obtain ⟨hcl, hd⟩ := ih (!b) cl d h
      rw [hcl, hd]
      constructor
      · rw [splitChunks, if_pos hs]
        cases b <;> simp [everyOther]
      · rw [splitChunks, if_pos hs]
        cases b <;> simp [everyOther]
    · obtain ⟨cc, cs, hcc⟩ := List.exists_cons_of_ne_nil (splitChunks_ne_nil rest)
      have hchunks : splitChunks (line :: rest) = (line :: cc) :: cs := by
        rw [splitChunks, if_neg hs, hcc]
      cases b with
      | true =>
        rw [processLines, if_neg hs, if_pos rfl] at h
        rcases hrec : processLines true rest with e | ⟨cl', d'⟩
        · rw [hrec] at h; cases h
        · rw [hrec] at h
          simp only [Except.ok.injEq, Prod.mk.injEq] at h
          obtain ⟨hcl, hd⟩ := h
          obtain ⟨hcl', hd'⟩ := ih true cl' d' hrec
          rw [← hcl, ← hd, hcl', hd', hchunks, hcc]
          constructor
          · simp [everyOther]
          · simp [everyOther]
      | false =>
        rw [processLines, if_neg hs, if_neg (by simp)] at h
        rcases hp : parse_line line with e | s
        · rw [hp] at h; cases h
        · rw [hp] at h
          rcases hrec : processLines false rest with e | ⟨cl', d'⟩
          · rw [hrec] at h; cases h
          · rw [hrec] at h
            simp only [Except.ok.injEq, Prod.mk.injEq] at h
            obtain ⟨hcl, hd⟩ := h
            obtain ⟨hcl', hd'⟩ := ih false cl' d' hrec
            rw [← hcl, ← hd, hcl', hd', hchunks, hcc]
            constructor
            · simp [everyOther]
            · simp only [everyOther, Bool.not_false, Bool.not_true, if_pos, if_neg,
                List.flatten_cons, parsedSamples]
              cases s with
              | none =>
                simp [List.filterMap_cons, hp]
              | some x =>
                simp [List.filterMap_cons, hp]


theorem splitChunks_no_sentinel :
    ∀ (ls : List String) (l : String), l ∈ (splitChunks ls).flatten → isSentinel l = false := by
  intro ls
  induction ls with
  | nil => intro l hl; simp [splitChunks] at hl
  | cons x xs ih =>
    intro l hl
    by_cases hs : isSentinel x = true
    · rw [splitChunks, if_pos hs] at hl
      simp only [List.flatten_cons, List.nil_append] at hl
      exact ih l hl
    · obtain ⟨cc, cs, hcc⟩ := List.exists_cons_of_ne_nil (splitChunks_ne_nil xs)
      rw [splitChunks, if_neg hs, hcc] at hl
      simp only [List.flatten_cons, List.cons_append, List.mem_cons] at hl
      rcases hl with rfl | hl
      · simpa using hs
      · apply ih
        rw [hcc]
        simpa using hl

theorem splitChunks_of_countP_zero :
    ∀ (ls : List String), ls.countP isSentinel = 0 → splitChunks ls = [ls] := by
  intro ls
  induction ls with
  | nil => intro _; rfl
  | cons x xs ih =>
    intro h
    rw [List.countP_cons] at h
    have hs : isSentinel x = false := by
      by_cases hx : isSentinel x = true
      · rw [if_pos hx] at h; omega
      · simpa using hx
    have hxs : xs.countP isSentinel = 0 := by
      rw [if_neg (by simp [hs])] at h
      omega
    rw [splitChunks, if_neg (by simp [hs]), ih hxs]

theorem length_splitChunks :
    ∀ (ls : List String), (splitChunks ls).length = ls.countP isSentinel + 1 := by
  intro ls
  induction ls with
  | nil => simp [splitChunks]
  | cons x xs ih =>
    by_cases hs : isSentinel x = true
    · rw [splitChunks, if_pos hs, List.countP_cons, if_pos hs]
      simp [ih]
    · obtain ⟨cc, cs, hcc⟩ := List.exists_cons_of_ne_nil (splitChunks_ne_nil xs)
      rw [splitChunks, if_neg hs, hcc, List.countP_cons, if_neg hs]
      rw [hcc] at ih
      simpa using ih

theorem takeWhile_append_of_all {p : α → Bool} {xs : List α} (ys : List α)
    (h : ∀ x ∈ xs, p x = true) :
    (xs ++ ys).takeWhile p = xs ++ ys.takeWhile p := by
  induction xs with
  | nil => simp
  | cons a as ih =>
    simp only [List.cons_append, List.takeWhile_cons_of_pos (h a (List.mem_cons_self a as))]
    rw [ih (fun x hx => h x (List.mem_cons_of_mem a hx))]

theorem takeWhile_append_of_bad {p : α → Bool} {xs : List α} (ys : List α)
    (h : ∃ x ∈ xs, p x = false) :
    (xs ++ ys).takeWhile p = xs.takeWhile p := by
  induction xs with
  | nil =>
    obtain ⟨x, hx, -⟩ := h
    cases hx
  | cons a as ih =>
    by_cases ha : p a = true
    · simp only [List.cons_append, List.takeWhile_cons_of_pos ha]
      obtain ⟨x, hx, hpx⟩ := h
      rcases List.mem_cons.mp hx with rfl | hx
      · rw [ha] at hpx; cases hpx
      · rw [ih ⟨x, hx, hpx⟩]
    · simp only [List.cons_append, List.takeWhile_cons_of_neg ha,
        List.takeWhile_cons_of_neg ha]

theorem afterLast_cons_of_none {x : String} {xs : List String}
    (hxs : xs.countP isSentinel = 0) (hx : isSentinel x = true) :
    afterLast (x :: xs) = xs := by
  unfold afterLast
  rw [List.reverse_cons]
  rw [takeWhile_append_of_all [x] (by
    intro y hy
    have hns := List.countP_eq_zero.mp hxs y (by simpa using hy)
    simp only [Bool.not_eq_true] at hns
    simp [hns])]
  rw [List.takeWhile_cons_of_neg (by simp [hx]), List.append_nil, List.reverse_reverse]

theorem afterLast_cons_of_pos {x : String} {xs : List String}
    (hxs : 0 < xs.countP isSentinel) :
    afterLast (x :: xs) = afterLast xs := by
  unfold afterLast
  rw [List.reverse_cons]
  rw [takeWhile_append_of_bad [x] (by
    obtain ⟨y, hy, hpy⟩ := List.countP_pos_iff.mp hxs
    exact ⟨y, by simpa using hy, by simp [hpy]⟩)]


theorem getLast_splitChunks :
    ∀ (ls : List String), 0 < ls.countP isSentinel →
      (splitChunks ls).getLast? = some (afterLast ls) := by
  intro ls
  induction ls with
  | nil => intro h; simp at h
  | cons x xs ih =>
    intro h
    by_cases hs : isSentinel x = true
    · rw [splitChunks, if_pos hs]
      by_cases hxs : 0 < xs.countP isSentinel
      · rw [afterLast_cons_of_pos hxs]
        obtain ⟨cc, cs, hcc⟩ := List.exists_cons_of_ne_nil (splitChunks_ne_nil xs)
        rw [hcc, List.getLast?_cons_cons, ← hcc, ih hxs]
      · have h0 : xs.countP isSentinel = 0 := by omega
        rw [afterLast_cons_of_none h0 hs, splitChunks_of_countP_zero xs h0]
        rfl
    · have hxs : 0 < xs.countP isSentinel := by
        rw [List.countP_cons, if_neg hs] at h
        omega
      rw [afterLast_cons_of_pos hxs]
      obtain ⟨cc, cs, hcc⟩ := List.exists_cons_of_ne_nil (splitChunks_ne_nil xs)
      have ihh := ih hxs
      rw [hcc] at ihh
      rw [splitChunks, if_neg hs, hcc]
      cases cs with
      | nil =>
        exfalso
        have hlen := length_splitChunks xs
        rw [hcc, List.length_singleton] at hlen
        omega
      | cons c2 cs2 =>
        rw [List.getLast?_cons_cons]
        rw [List.getLast?_cons_cons] at ihh
        exact ihh

theorem everyOther_last_suffix :
    ∀ (cs : List (List String)) (c : List String) (b : Bool),
      cs.getLast? = some c →
      (if (cs.length - 1) % 2 = 0 then b else !b) = true →
      c <:+ (everyOther b cs).flatten := by
  intro cs
  induction cs with
  | nil => intro c b h _; cases h
  | cons x xs ih =>
    intro c b hlast hcond
    cases xs with
    | nil =>
      simp only [List.getLast?_singleton, Option.some.injEq] at hlast
      subst hlast
      simp at hcond
      rw [hcond]
      simp [everyOther]
    | cons y ys =>
      rw [List.getLast?_cons_cons] at hlast
      have hcond' : (if ((y :: ys).length - 1) % 2 = 0 then !b else !(!b)) = true := by
        simp only [List.length_cons, Nat.add_sub_cancel] at hcond ⊢
        by_cases hpar : ys.length % 2 = 0
        · rw [if_neg (by omega)] at hcond
          rw [if_pos hpar]
          exact hcond
        · rw [if_pos (by omega)] at hcond
          rw [if_neg hpar, Bool.not_not]
          exact hcond
      have hsuf := ih c (!b) hlast hcond'
      refine hsuf.trans ?_
      cases b <;> simp [everyOther, List.suffix_append]

theorem everyOther_sublist : ∀ (cs : List α) (b : Bool), List.Sublist (everyOther b cs) cs := by
  intro cs
  induction cs with
  | nil => intro b; simp [everyOther]
  | cons x xs ih =>
    intro b
    cases b with
    | true => exact (ih false).cons₂ x
    | false => exact (ih true).cons x

theorem mem_flatten_everyOther {l : α} {cs : List (List α)} {b : Bool}
    (h : l ∈ (everyOther b cs).flatten) : l ∈ cs.flatten := by
  rw [List.mem_flatten] at h ⊢
  obtain ⟨a, ha, hl⟩ := h
  exact ⟨a, (everyOther_sublist cs b).mem ha, hl⟩

/-- C3: for a file whose lines contain an even, balanced number of sentinel
lines, the extracted code lines are exactly the odd-position blocks of the
sentinel-split of the file (the lines strictly between consecutive sentinel
pairs, in order), the samples are the parses of the even-position blocks (the
metrics regions) in file order, and sentinel lines appear in neither output. -/
theorem C3_balanced_extraction (ls : List String) (cl : List String) (d : List MetricSample)
    (_heven : Even (ls.countP isSentinel))
    (h : processLines false ls = .ok (cl, d)) :
    cl = (everyOther false (splitChunks ls)).flatten ∧
    d = parsedSamples ((everyOther true (splitChunks ls)).flatten) ∧
    (∀ l ∈ cl, isSentinel l = false) ∧
    (∀ l ∈ (everyOther true (splitChunks ls)).flatten, isSentinel l = false) := by
  obtain ⟨hcl, hd⟩ := processLines_chunks ls false cl d h
  refine ⟨hcl, by simpa using hd, ?_, ?_⟩
  · intro l hl
    rw [hcl] at hl
    exact splitChunks_no_sentinel ls l (mem_flatten_everyOther hl)
  · intro l hl
    exact splitChunks_no_sentinel ls l (mem_flatten_everyOther hl)

/-- C4: a file with zero sentinel lines yields empty code and every
structurally matching line as a sample; a file with an odd number of
sentinel lines collects every line after the last sentinel into the code
(still in code-block mode at end of file). -/
theorem C4_unbalanced_extraction (ls : List String) (cl : List String) (d : List MetricSample)
    (h : processLines false ls = .ok (cl, d)) :
    (ls.countP isSentinel = 0 → String.join cl = "" ∧ d = parsedSamples ls) ∧
    (Odd (ls.countP isSentinel) → afterLast ls <:+ cl) := by
  obtain ⟨hcl, hd⟩ := processLines_chunks ls false cl d h
  constructor
  · intro h0
    rw [splitChunks_of_countP_zero ls h0] at hcl hd
    constructor
    · rw [hcl]
      rfl
    · rw [hd]
      simp [everyOther]
  · intro hodd
    have hlen := length_splitChunks ls
    have hpos : 0 < ls.countP isSentinel := by
      rcases hodd with ⟨k, hk⟩
      omega
    have hlast := getLast_splitChunks ls hpos
    have hcond : (if (((splitChunks ls).length - 1) % 2 = 0) then false else !false) = true := by
      rw [hlen]
      obtain ⟨k, hk⟩ := hodd
      rw [hk, if_neg (by omega)]
      rfl
    rw [hcl]
    exact everyOther_last_suffix (splitChunks ls) (afterLast ls) false hlast hcond


theorem C3_witness :
    Even ((["step:1/10 loss:2 train_time:100ms step_avg:4ms\n",
            (⟨List.replicate 100 '='⟩ : String), "print(hi)\n",
            (⟨List.replicate 100 '='⟩ : String), "after\n"] :
        List String).countP isSentinel) ∧
    processLines false
        ["step:1/10 loss:2 train_time:100ms step_avg:4ms\n",
         (⟨List.replicate 100 '='⟩ : String), "print(hi)\n",
         (⟨List.replicate 100 '='⟩ : String), "after\n"] =
      .ok (["print(hi)\n"],
        [⟨1, "loss", .finite (mkRat 2 1), .finite (mkRat 100 1),
          some (.finite (mkRat 4 1))⟩]) ∧
    (["print(hi)\n"] : List String) =
      (everyOther false (splitChunks
        ["step:1/10 loss:2 train_time:100ms step_avg:4ms\n",
         (⟨List.replicate 100 '='⟩ : String), "print(hi)\n",
         (⟨List.replicate 100 '='⟩ : String), "after\n"])).flatten :=
  ⟨by decide, by decide,
    (C3_balanced_extraction
      ["step:1/10 loss:2 train_time:100ms step_avg:4ms\n",
       (⟨List.replicate 100 '='⟩ : String), "print(hi)\n",
       (⟨List.replicate 100 '='⟩ : String), "after\n"]
      ["print(hi)\n"]
      [⟨1, "loss", .finite (mkRat 2 1), .finite (mkRat 100 1),
        some (.finite (mkRat 4 1))⟩]
      (by decide) (by decide)).1⟩

theorem C4_witness :
    (String.join [] = "" ∧
      ([] : List MetricSample) = parsedSamples ["hello\n"]) ∧
    afterLast [(⟨List.replicate 100 '='⟩ : String), "x\n"] <:+ ["x\n"] :=
  ⟨(C4_unbalanced_extraction ["hello\n"] [] [] (by decide)).1 (by decide),
   (C4_unbalanced_extraction [(⟨List.replicate 100 '='⟩ : String), "x\n"] ["x\n"] []
      (by decide)).2 (by decide)⟩

/-! ### Claim C5: the run repository ordering -/

/-- C5: any scan result is sorted by modification time descending: of two
runs in the returned order, the earlier one has the larger (or equal)
modification time, i.e. a run with strictly larger mtime is listed
earlier. -/
theorem C5_runs_sorted_desc (files : List FileEntry) (runs : List Run)
    (h : parse_logs files = .ok runs) :
    ∀ (i j : Fin runs.length), i < j →
      (runs.get j).mtime ≤ (runs.get i).mtime := by
  have hsorted : List.Sorted mtimeGE runs := by
    unfold parse_logs at h
    rcases hm : (files.filter (fun f => endsWithTxt f.name)).mapM runOfFile with e | rs
    · rw [hm] at h; cases h
    · rw [hm] at h
      simp only [Except.ok.injEq] at h
      rw [← h]
      exact List.sorted_insertionSort mtimeGE rs
  intro i j hij
  exact (List.pairwise_iff_get.mp hsorted) i j hij

theorem C5_witness :
    (([⟨"b", 2, "", []⟩, ⟨"a", 1, "", []⟩] : List Run).get ⟨1, by decide⟩).mtime ≤
      (([⟨"b", 2, "", []⟩, ⟨"a", 1, "", []⟩] : List Run).get ⟨0, by decide⟩).mtime :=
  C5_runs_sorted_desc
    [⟨"a.txt", 1, []⟩, ⟨"b.txt", 2, []⟩]
    [⟨"b", 2, "", []⟩, ⟨"a", 1, "", []⟩]
    (by decide) ⟨0, by decide⟩ ⟨1, by decide⟩ (by decide)


/-! ### Lemmas about the diff route -/

theorem slk_ne_nil : ∀ (cs cur : List Char), cs ≠ [] ∨ cur ≠ [] → slk cur cs ≠ [] := by
  intro cs
  induction cs with
  | nil =>
    intro cur h
    rcases h with h | h
    · exact absurd rfl h
    · rw [slk, if_neg h]
      simp
  | cons c cs ih =>
    intro cur h
    rw [slk]
    split
    · simp
    · exact ih _ (.inr (by simp))

theorem splitlinesKE_ne_nil {s : String} (h : s ≠ "") : splitlinesKE s ≠ [] := by
  have hd : s.data ≠ [] := by
    intro hnil
    apply h
    cases s
    simp at hnil
    rw [hnil]
  unfold splitlinesKE
  intro hmap
  exact slk_ne_nil s.data [] (.inl hd) (List.map_eq_nil_iff.mp hmap)

theorem diffBody_nil (c : List String) (l : String) :
    diffBody [] c l = "No run available to compare." := rfl

theorem diff_GET_norid (cache : Cache) (runs : List Run) (cmp : String) :
    diff_GET cache runs none cmp =
      (.err 400 "Bad Request: run_id parameter is missing.", cache) := rfl

theorem diff_GET_hit {cache : Cache} {runs : List Run} {rid cmp t : String} {i : ℕ}
    (hrid : rid ≠ "") (hfind : runs.findIdx? (fun r => r.run_id = rid) = some i)
    (hhit : cacheLookup cache (rid, cmp) = some t) :
    diff_GET cache runs (some rid) cmp = (.ok t, cache) := by
  simp only [diff_GET, if_neg hrid, hfind, hhit]

theorem diff_GET_miss {cache : Cache} {runs : List Run} {rid cmp : String} {i : ℕ}
    (hrid : rid ≠ "") (hfind : runs.findIdx? (fun r => r.run_id = rid) = some i)
    (hmiss : cacheLookup cache (rid, cmp) = none) :
    diff_GET cache runs (some rid) cmp =
      (.ok (computeDiffText runs i cmp),
       (((rid, cmp), computeDiffText runs i cmp) :: cache : Cache)) := by
  simp only [diff_GET, if_neg hrid, hfind, hmiss]

theorem diff_GET_notfound {cache : Cache} {runs : List Run} {rid cmp : String}
    (hrid : rid ≠ "") (hfind : runs.findIdx? (fun r => r.run_id = rid) = none) :
    diff_GET cache runs (some rid) cmp = (.ok "Run ID not found.", cache) := by
  simp only [diff_GET, if_neg hrid, hfind]

theorem resolveBaseline_other {runs : List Run} {index : ℕ} {cmp : String}
    (hp : cmp ≠ "previous") (hf : cmp ≠ "first") :
    resolveBaseline runs index cmp = ([], "No Run to Compare") := by
  unfold resolveBaseline
  rw [if_neg (fun hc => hp hc.1), if_neg (fun hc => hf hc.1)]

theorem resolveBaseline_prev {runs : List Run} {index : ℕ}
    (hlt : index + 1 < runs.length) :
    resolveBaseline runs index "previous" =
      (splitlinesKE (runs.getD (index + 1) default).code, "Previous Run") := by
  unfold resolveBaseline
  rw [if_pos ⟨rfl, hlt⟩]

theorem resolveBaseline_first {runs : List Run} {index : ℕ}
    (hlen : 0 < runs.length) :
    resolveBaseline runs index "first" =
      (splitlinesKE ((runs.getLast?).getD default).code, "First Run") := by
  unfold resolveBaseline
  rw [if_neg (fun hc => absurd hc.1 (by decide)), if_pos ⟨rfl, hlen⟩]

/-! ### Claims C6 to C10: the diff engine -/

/-- C6 counterexample: two runs with identical (empty) code blocks; the
baseline run exists, the code blocks are textually identical, yet the diff
body is the "no run available" text, not "No differences found.". -/
theorem C6_counterexample :
    ((([⟨"a", 2, "", []⟩, ⟨"b", 1, "", []⟩] : List Run).getD 1 default).code =
      (([⟨"a", 2, "", []⟩, ⟨"b", 1, "", []⟩] : List Run).getD 0 default).code) ∧
    (diff_GET [] [⟨"a", 2, "", []⟩, ⟨"b", 1, "", []⟩] (some "a") "previous").1 =
      .ok "Comparing Run a to Previous Run\n\nNo run available to compare." ∧
    ("No run available to compare." : String) ≠ "No differences found." :=
  ⟨rfl, by decide, by decide⟩

/-- C6 (amended): for an uncached diff request in mode previous/first whose
baseline run exists, if the baseline's code block equals the selected run's
code block and is non-empty, the computed body is "No differences found.". -/
theorem C6_identical_nonempty (cache : Cache) (runs : List Run) (rid : String) (i : ℕ)
    (hrid : rid ≠ "") (hfind : runs.findIdx? (fun r => r.run_id = rid) = some i) :
    (cacheLookup cache (rid, "previous") = none → i + 1 < runs.length →
      (runs.getD (i + 1) default).code = (runs.getD i default).code →
      (runs.getD (i + 1) default).code ≠ "" →
      (diff_GET cache runs (some rid) "previous").1 =
        .ok ("Comparing Run " ++ (runs.getD i default).run_id ++ " to " ++
          "Previous Run" ++ "\n\n" ++ "No differences found.")) ∧
    (cacheLookup cache (rid, "first") = none → 0 < runs.length →
      ((runs.getLast?).getD default).code = (runs.getD i default).code →
      ((runs.getLast?).getD default).code ≠ "" →
      (diff_GET cache runs (some rid) "first").1 =
        .ok ("Comparing Run " ++ (runs.getD i default).run_id ++ " to " ++
          "First Run" ++ "\n\n" ++ "No differences found.")) := by
  constructor
  · intro hmiss hlt heq hne
    rw [diff_GET_miss hrid hfind hmiss]
    have hbody : diffBody (splitlinesKE (runs.getD (i + 1) default).code)
        (splitlinesKE (runs.getD i default).code) "Previous Run" =
        "No differences found." := by
      unfold diffBody
      rw [heq]
      rw [if_pos (by rw [← heq]; exact splitlinesKE_ne_nil hne)]
      rw [if_pos (by unfold unified_diff; rw [if_pos rfl])]
    show Response.ok (computeDiffText runs i "previous") = _
    unfold computeDiffText
    rw [resolveBaseline_prev hlt, hbody]
  · intro hmiss hlen heq hne
    rw [diff_GET_miss hrid hfind hmiss]
    have hbody : diffBody (splitlinesKE ((runs.getLast?).getD default).code)
        (splitlinesKE (runs.getD i default).code) "First Run" =
        "No differences found." := by
      unfold diffBody
      rw [heq]
      rw [if_pos (by rw [← heq]; exact splitlinesKE_ne_nil hne)]
      rw [if_pos (by unfold unified_diff; rw [if_pos rfl])]
    show Response.ok (computeDiffText runs i "first") = _
    unfold computeDiffText
    rw [resolveBaseline_first hlen, hbody]

theorem C6_witness :
    (diff_GET [] [⟨"a", 2, "x\n", []⟩, ⟨"b", 1, "x\n", []⟩] (some "a") "previous").1 =
      .ok ("Comparing Run " ++
        (([⟨"a", 2, "x\n", []⟩, ⟨"b", 1, "x\n", []⟩] : List Run).getD 0 default).run_id ++
        " to " ++ "Previous Run" ++ "\n\n" ++ "No differences found.") :=
  (C6_identical_nonempty [] [⟨"a", 2, "x\n", []⟩, ⟨"b", 1, "x\n", []⟩] "a" 0
    (by decide) (by decide)).1 (by decide) (by decide) (by decide) (by decide)


/-- C7: the diff memo is append-only: a stored entry is returned
byte-identical by any later call that reaches the memo with its key (with
the cache unchanged), and no call whatsoever overwrites or invalidates it,
regardless of what the freshly scanned runs now contain. -/
theorem C7_cache_append_only (cache : Cache) (runs runs2 : List Run)
    (rid cmp t : String) (run_id?2 : Option String) (cmp2 : String) (i : ℕ)
    (hstored : cacheLookup cache (rid, cmp) = some t) :
    (rid ≠ "" → runs.findIdx? (fun r => r.run_id = rid) = some i →
      diff_GET cache runs (some rid) cmp = (.ok t, cache)) ∧
    cacheLookup (diff_GET cache runs2 run_id?2 cmp2).2 (rid, cmp) = some t := by
  constructor
  · intro hrid hfind
    exact diff_GET_hit hrid hfind hstored
  · rcases run_id?2 with _ | rid2
    · rw [diff_GET_norid]
      exact hstored
    · by_cases hrid2 : rid2 = ""
      · subst hrid2
        simp only [diff_GET, if_pos rfl]
        exact hstored
      · rcases hfind2 : runs2.findIdx? (fun r => r.run_id = rid2) with _ | i2
        · rw [diff_GET_notfound hrid2 hfind2]
          exact hstored
        · rcases hhit2 : cacheLookup cache (rid2, cmp2) with _ | t2
          · rw [diff_GET_miss hrid2 hfind2 hhit2]
            show cacheLookup (((rid2, cmp2), _) :: cache) (rid, cmp) = some t
            rw [cacheLookup]
            split
            · next heqkey =>
              rw [heqkey] at hhit2
              rw [hhit2] at hstored
              cases hstored
            · exact hstored
          · rw [diff_GET_hit hrid2 hfind2 hhit2]
            exact hstored

theorem C7_witness :
    diff_GET [(("r", "previous"), "cached text")] [⟨"r", 1, "", []⟩]
        (some "r") "previous" =
      (.ok "cached text", [(("r", "previous"), "cached text")]) ∧
    cacheLookup
      (diff_GET [(("r", "previous"), "cached text")] [⟨"r", 1, "", []⟩]
        (some "r") "first").2 ("r", "previous") = some "cached text" :=
  ⟨(C7_cache_append_only [(("r", "previous"), "cached text")] [⟨"r", 1, "", []⟩]
      [⟨"r", 1, "", []⟩] "r" "previous" "cached text" (some "r") "first" 0
      (by decide)).1 (by decide) (by decide),
   (C7_cache_append_only [(("r", "previous"), "cached text")] [⟨"r", 1, "", []⟩]
      [⟨"r", 1, "", []⟩] "r" "previous" "cached text" (some "r") "first" 0
      (by decide)).2⟩

/-- C8: a present but unknown run_id yields the successful plain-text
response "Run ID not found." (cache untouched), while a missing run_id
yields a 400 invalid-request error, a distinct outcome. -/
theorem C8_notfound_vs_missing (cache : Cache) (runs : List Run) (rid cmp : String)
    (hrid : rid ≠ "") (hfind : runs.findIdx? (fun r => r.run_id = rid) = none) :
    diff_GET cache runs (some rid) cmp = (.ok "Run ID not found.", cache) ∧
    diff_GET cache runs none cmp =
      (.err 400 "Bad Request: run_id parameter is missing.", cache) ∧
    (Response.err 400 "Bad Request: run_id parameter is missing." ≠
      .ok "Run ID not found.") :=
  ⟨diff_GET_notfound hrid hfind, rfl, by decide⟩

theorem C8_witness :
    diff_GET [] [⟨"a", 1, "", []⟩] (some "zzz") "previous" =
      (.ok "Run ID not found.", []) ∧
    diff_GET [] [⟨"a", 1, "", []⟩] none "previous" =
      (.err 400 "Bad Request: run_id parameter is missing.", []) ∧
    (Response.err 400 "Bad Request: run_id parameter is missing." ≠
      .ok "Run ID not found.") :=
  C8_notfound_vs_missing [] [⟨"a", 1, "", []⟩] "zzz" "previous"
    (by decide) (by decide)

/-- C9: an uncached diff request whose compare mode is neither "previous"
nor "first" takes the no-comparison path: label "No Run to Compare" and
body "No run available to compare.". -/
theorem C9_unknown_mode (cache : Cache) (runs : List Run) (rid cmp : String) (i : ℕ)
    (hrid : rid ≠ "") (hp : cmp ≠ "previous") (hf : cmp ≠ "first")
    (hfind : runs.findIdx? (fun r => r.run_id = rid) = some i)
    (hmiss : cacheLookup cache (rid, cmp) = none) :
    (diff_GET cache runs (some rid) cmp).1 =
      .ok ("Comparing Run " ++ (runs.getD i default).run_id ++ " to " ++
        "No Run to Compare" ++ "\n\n" ++ "No run available to compare.") := by
  rw [diff_GET_miss hrid hfind hmiss]
  show Response.ok (computeDiffText runs i cmp) = _
  unfold computeDiffText
  rw [resolveBaseline_other hp hf]
  rfl

theorem C9_witness :
    (diff_GET [] [⟨"a", 1, "", []⟩] (some "a") "weird").1 =
      .ok ("Comparing Run " ++ (([⟨"a", 1, "", []⟩] : List Run).getD 0 default).run_id ++
        " to " ++ "No Run to Compare" ++ "\n\n" ++ "No run available to compare.") :=
  C9_unknown_mode [] [⟨"a", 1, "", []⟩] "a" "weird" 0
    (by decide) (by decide) (by decide) (by decide) (by decide)

/-- C10: when the baseline run exists but its code block is the empty
string, the body is "No run available to compare." (the engine branches on
the emptiness of the baseline's split code lines, not on baseline
existence), in both "previous" and "first" modes. -/
theorem C10_empty_baseline_code (cache : Cache) (runs : List Run) (rid : String) (i : ℕ)
    (hrid : rid ≠ "") (hfind : runs.findIdx? (fun r => r.run_id = rid) = some i) :
    (cacheLookup cache (rid, "previous") = none → i + 1 < runs.length →
      (runs.getD (i + 1) default).code = "" →
      (diff_GET cache runs (some rid) "previous").1 =
        .ok ("Comparing Run " ++ (runs.getD i default).run_id ++ " to " ++
          "Previous Run" ++ "\n\n" ++ "No run available to compare.")) ∧
    (cacheLookup cache (rid, "first") = none → 0 < runs.length →
      ((runs.getLast?).getD default).code = "" →
      (diff_GET cache runs (some rid) "first").1 =
        .ok ("Comparing Run " ++ (runs.getD i default).run_id ++ " to " ++
          "First Run" ++ "\n\n" ++ "No run available to compare.")) := by
  constructor
  · intro hmiss hlt hcode
    rw [diff_GET_miss hrid hfind hmiss]
    show Response.ok (computeDiffText runs i "previous") = _
    unfold computeDiffText
    rw [resolveBaseline_prev hlt, hcode]
    rfl
  · intro hmiss hlen hcode
    rw [diff_GET_miss hrid hfind hmiss]
    show Response.ok (computeDiffText runs i "first") = _
    unfold computeDiffText
    rw [resolveBaseline_first hlen, hcode]
    rfl

theorem C10_witness :
    (diff_GET [] [⟨"a", 2, "print\n", []⟩, ⟨"b", 1, "", []⟩] (some "a") "previous").1 =
      .ok ("Comparing Run " ++
        (([⟨"a", 2, "print\n", []⟩, ⟨"b", 1, "", []⟩] : List Run).getD 0 default).run_id ++
        " to " ++ "Previous Run" ++ "\n\n" ++ "No run available to compare.") :=
  (C10_empty_baseline_code [] [⟨"a", 2, "print\n", []⟩, ⟨"b", 1, "", []⟩] "a" 0
    (by decide) (by decide)).1 (by decide) (by decide) (by decide)

end Srv
